import Mathlib

/-
Verification of the batch-embedding service (Go) against its specification.

The embedding is shallow: the pure data model and the pure functions of
`services/embedding.go`, `services/jobstore.go` and the worker file are
translated into Lean definitions; the I/O performed by the worker (file
download, result persistence, the Ollama HTTP call, registry writes,
callbacks) is made explicit, as oracle arguments for inputs received from
the outside world and as returned traces for effects the code performs.
Go `int` values are modeled as `Int`; every division that occurs has
nonnegative operands, where Go's truncated division and `Int`'s Euclidean
division agree.  Go strings are Lean `String`s; `[]rune(s)` is `s.data`.
Byte slices are lists of byte values (`List Nat`); `string(bytes)` is
modeled code-point-per-byte, which is exact for ASCII content.  Vectors of
`float32`/`float64` are modeled as lists of real numbers.
-/

namespace BatchEmbedding

/-- models.Error: a job-level error descriptor, `{code, message}`. -/
structure Err where
  code : String
  message : String
deriving DecidableEq

/-- services.TextChunk: one chunk produced by `chunkText`.  The Go field
`Text` holds the rune slice `runes[start:end]`, kept here as a list of code
points; the Go field `End` is named `stop` (`end` is a reserved word). -/
structure TextChunk where
  chunkID : String
  text : List Char
  start : Int
  stop : Int
deriving DecidableEq

/-- The `split` loop of `services.chunkText`
(`for start := 0; start < textLen; start += chunkSize`).  The Go loop never
terminates when `chunkSize ≤ 0`; the conjunct `0 < chunkSize` in the guard
records the caller invariant `chunk_size > 0`, under which the model
coincides with the Go loop. -/
def splitLoop (docID : String) (runes : List Char) (chunkSize start : Int)
    (chunkIndex : Nat) : List TextChunk :=
  if h : start < (runes.length : Int) ∧ 0 < chunkSize then
    let stop := if start + chunkSize > (runes.length : Int) then (runes.length : Int)
                else start + chunkSize
    { chunkID := docID ++ "_" ++ toString chunkIndex,
      text := (runes.drop start.toNat).take (stop - start).toNat,
      start := start, stop := stop } ::
      splitLoop docID runes chunkSize (start + chunkSize) (chunkIndex + 1)
  else []
termination_by ((runes.length : Int) - start).toNat
decreasing_by omega

/-- services.EmbeddingService.chunkText.  `[]rune(text)` is `text.data`.
(For a negative `chunkSize` the Go `truncate` branch would panic on the
slice `runes[:end]`; `Int.toNat` clips at 0 instead — all callers use
positive chunk sizes.) -/
def chunkText (docID : String) (text : String) (chunkSize : Int)
    (strategy : String) : List TextChunk :=
  let runes := text.data
  let textLen : Int := runes.length
  if strategy = "truncate" then
    let stop := if chunkSize > textLen then textLen else chunkSize
    [{ chunkID := docID ++ "_0", text := runes.take stop.toNat,
       start := 0, stop := stop }]
  else
    splitLoop docID runes chunkSize 0 0

/-- Decidable equality of `Except` values, used to evaluate the model on
concrete inputs. -/
instance {ε α : Type} [DecidableEq ε] [DecidableEq α] : DecidableEq (Except ε α)
  | .ok a, .ok b =>
    match decEq a b with
    | isTrue h => isTrue (by rw [h])
    | isFalse h => isFalse (fun hh => h (Except.ok.inj hh))
  | .ok _, .error _ => isFalse (fun hh => Except.noConfusion hh)
  | .error _, .ok _ => isFalse (fun hh => Except.noConfusion hh)
  | .error e, .error f =>
    match decEq e f with
    | isTrue h => isTrue (by rw [h])
    | isFalse h => isFalse (fun hh => h (Except.error.inj hh))

/-- models.InputItem: one named text input of an embed request. -/
structure InputItem where
  id : String
  text : String
deriving DecidableEq

/-- models.EmbedRequest (the fields read by the pipeline). -/
structure EmbedRequest where
  model : String
  inputs : List InputItem
  truncateStrategy : String
  chunkSize : Int
  normalize : Bool
deriving DecidableEq

/-- models.Chunk: a chunk of an embed result, generic over the vector type
`V` (the pluggable vector generator's output).  The Go field `End` is named
`stop`; `TextSnippet` is kept as the rune list. -/
structure Chunk (V : Type) where
  chunkID : String
  start : Int
  stop : Int
  textSnippet : List Char
  embedding : V
deriving DecidableEq

/-- models.EmbedResult: either one whole-input vector or a chunk sequence.
A `none` field models the Go nil slice (omitted in JSON). -/
structure EmbedResult (V : Type) where
  id : String
  embeddings : Option V
  chunks : Option (List (Chunk V))
deriving DecidableEq

/-- models.EmbedResponse. -/
structure EmbedResponse (V : Type) where
  results : List (EmbedResult V)
deriving DecidableEq

/-- config.Config, restricted to the fields the embedding pipeline and the
worker read.  `EmbeddingDimension` is a Go `int`. -/
structure Config where
  embeddingProvider : String
  embeddingDimension : Int
  maxChunkSize : Int
  defaultChunkSize : Int
deriving DecidableEq

/-- services.truncateSnippet on the rune list of a chunk: at most `maxLen`
code points, with "..." appended when the text was cut. -/
def truncateSnippet (text : List Char) (maxLen : Nat) : List Char :=
  if text.length ≤ maxLen then text else text.take maxLen ++ "...".data

/-- The effective chunk size computed at the top of GenerateEmbeddings:
nonpositive request values fall back to the configured default, values
above the configured maximum are clamped down to it. -/
def effChunkSize (cfg : Config) (req : EmbedRequest) : Int :=
  let c1 := if req.chunkSize ≤ 0 then cfg.defaultChunkSize else req.chunkSize
  if c1 > cfg.maxChunkSize then cfg.maxChunkSize else c1

/-- The effective truncation strategy computed at the top of
GenerateEmbeddings: only the empty string is replaced by "truncate". -/
def effStrategy (req : EmbedRequest) : String :=
  if req.truncateStrategy = "" then "truncate" else req.truncateStrategy

/-- services.EmbeddingService.GenerateEmbeddings.  The service's vector
generator `s.generateEmbedding` is the explicit argument `gen`
(text, normalize flag ↦ vector); `utf8.RuneCountInString input.Text` is
`input.text.data.length`.  The Go function returns
`(*EmbedResponse, error)` and its only return path carries a nil error,
modeled as `Except.ok`. -/
def GenerateEmbeddings {V : Type} (cfg : Config) (gen : String → Bool → V)
    (req : EmbedRequest) : Except String (EmbedResponse V) :=
  .ok { results := req.inputs.map (fun input =>
    if (input.text.data.length : Int) ≤ effChunkSize cfg req then
      { id := input.id, embeddings := some (gen input.text req.normalize),
        chunks := none }
    else
      { id := input.id, embeddings := none,
        chunks := some ((chunkText input.id input.text (effChunkSize cfg req)
            (effStrategy req)).map (fun c =>
          { chunkID := c.chunkID, start := c.start, stop := c.stop,
            textSnippet := truncateSnippet c.text 200,
            embedding := gen (String.mk c.text) req.normalize })) }) }

/-- services.normalizeL2, with float32/float64 arithmetic modeled over the
real numbers: divide every component by the Euclidean norm, except that a
vector whose computed norm is zero is returned unchanged. -/
noncomputable def normalizeL2 (vec : List ℝ) : List ℝ :=
  let sumSq := (vec.map (fun v => v * v)).sum
  let norm := Real.sqrt sumSq
  if norm = 0 then vec else vec.map (fun v => v / norm)

/-- The Euclidean norm exactly as normalizeL2 computes it (`math.Sqrt` of
the sum of squared components). -/
noncomputable def vecNorm (vec : List ℝ) : ℝ :=
  Real.sqrt ((vec.map (fun v => v * v)).sum)

/-- services.EmbeddingService.mockEmbedding.  The Go function seeds a PRNG
from a hash of the text and draws `dimension` values in [-1, 1]; the draws
are the abstract oracle `draw` (`draw text i` is the i-th value drawn for
`text`), so the model keeps the shape (a vector of `dimension` draws,
L2-normalized when requested) without reimplementing Go's PRNG.  A negative
configured dimension would make the Go `make` call panic; `Int.toNat` clips
it to zero instead. -/
noncomputable def mockEmbedding (draw : String → Nat → ℝ) (text : String)
    (dimension : Int) (normalize : Bool) : List ℝ :=
  let embedding := (List.range dimension.toNat).map (draw text)
  if normalize then normalizeL2 embedding else embedding

/-- services.EmbeddingService.generateEmbedding.  The Ollama HTTP call of
`s.ollamaEmbedding text` is the oracle `ollama`; "openai" and the
"mock"/default cases of the Go switch all call mockEmbedding. -/
noncomputable def generateEmbedding (cfg : Config) (draw : String → Nat → ℝ)
    (ollama : String → Except String (List ℝ)) (text : String)
    (normalize : Bool) : List ℝ :=
  let dimension := cfg.embeddingDimension
  if cfg.embeddingProvider = "ollama" then
    match ollama text with
    | .error _ => mockEmbedding draw text dimension normalize
    | .ok emb => if normalize then normalizeL2 emb else emb
  else if cfg.embeddingProvider = "openai" then
    mockEmbedding draw text dimension normalize
  else
    mockEmbedding draw text dimension normalize

/-- Go `string(bytes)` for a byte list, modeled code point per byte (exact
for ASCII bytes). -/
def bytesToString (bs : List Nat) : String :=
  String.mk (bs.map Char.ofNat)

/-- strings.HasSuffix on rune lists. -/
def hasSuffixCh (s suf : List Char) : Bool :=
  decide (suf.length ≤ s.length) && (s.drop (s.length - suf.length) == suf)

/-- Number of iterations of the inner loop of extractPDFText
(`for j < len(text) && text[j] != ')'`), started at byte index `j`; the
loop's final `j` is the start index plus this count. -/
def pdfParenCount (text : List Nat) (j : Nat) : Nat :=
  if h : j < text.length ∧ text.getD j 0 ≠ 41 then pdfParenCount text (j + 1) + 1
  else 0
termination_by text.length - j
decreasing_by omega

/-- Bytes the inner loop of extractPDFText writes to the builder: the
printable bytes (32 ≤ b < 127) among the bytes it scans. -/
def pdfParenBytes (text : List Nat) (j : Nat) : List Nat :=
  if _h : j < text.length ∧ text.getD j 0 ≠ 41 then
    (if 32 ≤ text.getD j 0 ∧ text.getD j 0 < 127 then [text.getD j 0] else [])
      ++ pdfParenBytes text (j + 1)
  else []
termination_by text.length - j
decreasing_by omega

/-- The outer scanning loop of services.extractPDFText.  State: byte index
`i`, the `inText` flag, and the builder contents `acc`.  Byte values:
'B' = 66, 'T' = 84, 'E' = 69, '(' = 40, ' ' = 32.  In the '(' branch the Go
code sets `i = j` (the inner loop's final index) and the `for` then
increments it, i.e. the next index is `i + 1 + pdfParenCount + 1`. -/
def pdfScan (text : List Nat) (i : Nat) (inText : Bool) (acc : List Nat) :
    List Nat :=
  if h : i < text.length then
    if i + 1 < text.length ∧ text.getD i 0 = 66 ∧ text.getD (i + 1) 0 = 84 then
      pdfScan text (i + 1) true acc
    else if i + 1 < text.length ∧ text.getD i 0 = 69 ∧ text.getD (i + 1) 0 = 84 then
      pdfScan text (i + 1) false (acc ++ [32])
    else if inText ∧ text.getD i 0 = 40 then
      pdfScan text (i + 1 + pdfParenCount text (i + 1) + 1) inText
        (acc ++ pdfParenBytes text (i + 1))
    else
      pdfScan text (i + 1) inText acc
  else acc
termination_by text.length - i
decreasing_by
  · omega
  · omega
  · omega
  · omega

/-- The ASCII whitespace bytes of unicode.IsSpace that can reach this
extractor's output (every byte the builder receives is either 32 or in
[32, 127)). -/
def isSpaceByte (c : Nat) : Bool :=
  c = 32 || c = 9 || c = 10 || c = 13 || c = 11 || c = 12

/-- strings.TrimSpace on a byte list: strip leading and trailing
whitespace. -/
def trimSpace (bs : List Nat) : List Nat :=
  ((bs.dropWhile isSpaceByte).reverse.dropWhile isSpaceByte).reverse

/-- services.extractPDFText: scan for BT/ET-delimited parenthesised text;
if the builder stayed empty, fall back to collecting every printable byte
(mapping tab/newline/CR to a space); finally trim whitespace. -/
def extractPDFText (content : List Nat) : String :=
  let scanned := pdfScan content 0 false []
  let result :=
    if scanned.length = 0 then
      content.foldl (fun acc c =>
        if 32 ≤ c ∧ c < 127 then acc ++ [c]
        else if c = 10 ∨ c = 13 ∨ c = 9 then acc ++ [32]
        else acc) []
    else scanned
  bytesToString (trimSpace result)

/-- services.EmbeddingService.ExtractTextFromFile.  `strings.ToLower` is
applied per code point (identical to Go for ASCII filenames); the Go
`(string, error)` return is an `Except`. -/
def ExtractTextFromFile (filename : String) (content : List Nat) :
    Except String String :=
  let lowerName := filename.data.map Char.toLower
  if hasSuffixCh lowerName ".txt".data then .ok (bytesToString content)
  else if hasSuffixCh lowerName ".pdf".data then
    let text := extractPDFText content
    if text = "" then .error "could not extract text from PDF"
    else .ok text
  else .error ("unsupported file type: " ++ filename)

/-- models.Job.  The two wall-clock timestamp fields (`CreatedAt`,
`UpdatedAt`, stamped by the store on create/update) are outside the model;
no claim mentions them. -/
structure Job where
  jobID : String
  status : String
  progress : Int
  files : List String
  model : String
  resultURLs : List String
  error : Option Err
  callbackURL : String
deriving DecidableEq

/-- services.JobStore.CreateJob: the record inserted for a fresh job
(`jobID` stands for the generated UUID). -/
def CreateJob (jobID : String) (files : List String)
    (model callbackURL : String) : Job :=
  { jobID := jobID, status := "queued", progress := 0, files := files,
    model := model, resultURLs := [], error := none,
    callbackURL := callbackURL }

/-- One iteration of processJob's file loop up to its error handling: the
stages download → extract text → generate embeddings, each stage's failure
tagged with its code.  `download` is the oracle for the worker's
`downloadFile` I/O (file index and URL ↦ content bytes and filename);
`embedF` stands for `w.embeddingService.GenerateEmbeddings`, kept abstract
so the worker's error handling is modeled for any embedding backend. -/
def fileResult {V : Type} (cfg : Config)
    (embedF : EmbedRequest → Except String (EmbedResponse V))
    (download : Nat → String → Except String (List Nat × String))
    (i : Nat) (fileURL : String) (model : String) :
    Except Err (EmbedResponse V) :=
  match download i fileURL with
  | .error msg => .error ⟨"download_failed", msg⟩
  | .ok (content, filename) =>
    match ExtractTextFromFile filename content with
    | .error msg => .error ⟨"extraction_failed", msg⟩
    | .ok text =>
      match embedF { model := model,
                     inputs := [{ id := filename, text := text }],
                     truncateStrategy := "split",
                     chunkSize := cfg.defaultChunkSize,
                     normalize := true } with
      | .error msg => .error ⟨"embedding_failed", msg⟩
      | .ok resp => .ok resp

/-- The per-file loop of services.Worker.processJob.  `total` is
`totalFiles`, `i` the loop index, `acc` the `results` accumulator.
Returns (job value after the loop, registry writes issued by the loop in
order, callback dispatcher invocations, the accumulated results if every
file succeeded).  On a file failure the loop marks the job failed with the
stage's error, writes it back, invokes the callback dispatcher and returns
without touching the remaining files. -/
def procFiles {V : Type} (cfg : Config)
    (embedF : EmbedRequest → Except String (EmbedResponse V))
    (download : Nat → String → Except String (List Nat × String))
    (total : Nat) :
    Job → Nat → List String → List (EmbedResponse V) →
      Job × List Job × List Job × Option (List (EmbedResponse V))
  | job, _, [], acc => (job, [], [], some acc)
  | job, i, fileURL :: rest, acc =>
    match fileResult cfg embedF download i fileURL job.model with
    | .error e =>
      let j := { job with status := "failed", error := some e }
      (j, [j], [j], none)
    | .ok resp =>
      let j := { job with progress := ((i : Int) + 1) * 100 / (total : Int) }
      let r := procFiles cfg embedF download total j (i + 1) rest (acc ++ [resp])
      (r.1, j :: r.2.1, r.2.2.1, r.2.2.2)

/-- services.Worker.processJob.  The argument is the `GetJob` lookup result
(`none` = job id not in the registry: log and return, no side effects).
Effects are explicit: the first component is the ordered list of registry
writes (`UpdateJob` calls), the second the callback dispatcher invocations
(`sendCallback`, which itself no-ops when the job carries no callback URL),
the third the persisted result set (`some` exactly when `saveResults`
succeeded).  `save` is the oracle for the `saveResults` I/O; on success the
result path is the deterministic "/v1/results/" ++ jobID ++ "_results.json".
-/
def processJob {V : Type} (cfg : Config)
    (embedF : EmbedRequest → Except String (EmbedResponse V))
    (download : Nat → String → Except String (List Nat × String))
    (save : List (EmbedResponse V) → Except String Unit)
    (jobQ : Option Job) :
    List Job × List Job × Option (List (EmbedResponse V)) :=
  match jobQ with
  | none => ([], [], none)
  | some job0 =>
    let job1 := { job0 with status := "running", progress := 0 }
    let r := procFiles cfg embedF download job0.files.length job1 0 job0.files []
    let job2 := r.1
    match r.2.2.2 with
    | none => (job1 :: r.2.1, r.2.2.1, none)
    | some results =>
      match save results with
      | .error msg =>
        let jf := { job2 with status := "failed",
                              error := some (Err.mk "storage_failed" msg) }
        (job1 :: r.2.1 ++ [jf], r.2.2.1 ++ [jf], none)
      | .ok _ =>
        let jc := { job2 with status := "completed", progress := 100,
                              resultURLs := ["/v1/results/" ++ job0.jobID
                                ++ "_results.json"] }
        (job1 :: r.2.1 ++ [jc], r.2.2.1 ++ [jc], some results)

/-- Sample configuration (mock provider) used to exercise the model on
concrete inputs. -/
def cfgMock : Config :=
  { embeddingProvider := "mock", embeddingDimension := 4,
    maxChunkSize := 10, defaultChunkSize := 2 }

/-- Trivial vector generator used to exercise the pipeline shape on
concrete inputs (the vector values are irrelevant to the claims below). -/
def genUnit : String → Bool → Unit := fun _ _ => ()

/-- Sample one-input request over the 4-code-point text "abcd" with chunk
size 2, parameterized by the truncation strategy. -/
def reqABCD (s : String) : EmbedRequest :=
  { model := "m", inputs := [{ id := "doc", text := "abcd" }],
    truncateStrategy := s, chunkSize := 2, normalize := false }

/-- Length and indexed offsets of the split loop, for a positive chunk size
and a nonnegative start offset. -/
theorem splitLoop_spec (docID : String) (runes : List Char) (cs : Int)
    (hcs : 0 < cs) (start : Int) (hstart : 0 ≤ start) (idx : Nat) :
    (splitLoop docID runes cs start idx).length
        = (((runes.length : Int) - start + cs - 1) / cs).toNat ∧
    ∀ k c, (splitLoop docID runes cs start idx).get? k = some c →
      c.start = start + k * cs ∧
      c.stop = min (start + (k + 1) * cs) (runes.length : Int) ∧
      c.chunkID = docID ++ "_" ++ toString (idx + k) := by
  rw [splitLoop]
  by_cases hlt : start < (runes.length : Int)
  · rw [dif_pos ⟨hlt, hcs⟩]
    dsimp only
    obtain ⟨ih_len, ih_get⟩ :=
      splitLoop_spec docID runes cs hcs (start + cs) (by omega) (idx + 1)
    constructor
    · simp only [List.length_cons, ih_len]
      have h1 : ((runes.length : Int) - (start + cs) + cs - 1)
          = ((runes.length : Int) - start - 1) := by ring
      have h2 : ((runes.length : Int) - start + cs - 1)
          = ((runes.length : Int) - start - 1) + 1 * cs := by ring
      rw [h1, h2, Int.add_mul_ediv_right _ _ (by omega)]
      have h3 : 0 ≤ ((runes.length : Int) - start - 1) / cs :=
        Int.ediv_nonneg (by omega) (by omega)
      omega
    · intro k c hc
      match k with
      | 0 =>
        simp only [List.get?_cons_zero, Option.some.injEq] at hc
        subst hc
        refine ⟨?_, ?_, ?_⟩
        · dsimp only
          push_cast
          omega
        · dsimp only
          push_cast
          split <;> omega
        · simp
      | k + 1 =>
        simp only [List.get?_cons_succ] at hc
        obtain ⟨h1, h2, h3⟩ := ih_get k c hc
        refine ⟨?_, ?_, ?_⟩
        · rw [h1]; push_cast; ring
        · rw [h2]; congr 1; push_cast; ring
        · rw [h3]; congr 2; omega
  · rw [dif_neg (by tauto)]
    constructor
    · have h1 : ((runes.length : Int) - start + cs - 1) / cs < 1 := by
        rw [Int.ediv_lt_iff_lt_mul hcs]
        omega
      simp only [List.length_nil]
      omega
    · intro k c hc
      simp at hc
termination_by ((runes.length : Int) - start).toNat
decreasing_by omega

/-- Arithmetic helper: an index below `⌈len/n⌉` addresses a position below
`len`. -/
theorem mul_lt_of_lt_ceilDiv (len n k : Nat) (hn : 0 < n)
    (hk : k < (len + n - 1) / n) : k * n < len := by
  have h1 : k + 1 ≤ (len + n - 1) / n := hk
  have h2 : (k + 1) * n ≤ len + n - 1 := (Nat.le_div_iff_mul_le hn).mp h1
  have h3 : (k + 1) * n = k * n + n := by ring
  omega

/-- Arithmetic helper: `⌈len/n⌉ · n` reaches `len`. -/
theorem le_ceilDiv_mul (len n : Nat) (hn : 0 < n) :
    len ≤ ((len + n - 1) / n) * n := by
  have h1 := Nat.mod_add_div (len + n - 1) n
  have h2 : (len + n - 1) % n < n := Nat.mod_lt _ hn
  have h3 : ((len + n - 1) / n) * n = n * ((len + n - 1) / n) := by ring
  omega

/-- C3: for every text `T` and every `chunk_size > 0`, `chunkText` with
strategy "split" returns exactly `⌈len(T)/chunk_size⌉` chunks (code-point
length) whose `[start, stop)` ranges are contiguous, non-overlapping, in
strictly increasing order, and exactly cover `[0, len(T))`; every chunk
spans exactly `chunk_size` code points except possibly the last, which
spans the remainder. -/
theorem chunkText_split_covers (docID : String) (text : String) (n : Nat)
    (hn : 0 < n) :
    (chunkText docID text (n : Int) "split").length
        = (text.data.length + n - 1) / n ∧
    (∀ k (hk : k < (chunkText docID text (n : Int) "split").length),
        ((chunkText docID text (n : Int) "split").get ⟨k, hk⟩).start
            = (k * n : Nat) ∧
        ((chunkText docID text (n : Int) "split").get ⟨k, hk⟩).stop
            = (min ((k + 1) * n) text.data.length : Nat)) ∧
    (∀ k (hk : k < (chunkText docID text (n : Int) "split").length)
        (hk1 : k + 1 < (chunkText docID text (n : Int) "split").length),
        ((chunkText docID text (n : Int) "split").get ⟨k, hk⟩).stop
            = ((chunkText docID text (n : Int) "split").get ⟨k + 1, hk1⟩).start) ∧
    (∀ k (hk : k < (chunkText docID text (n : Int) "split").length),
        ((chunkText docID text (n : Int) "split").get ⟨k, hk⟩).start
            < ((chunkText docID text (n : Int) "split").get ⟨k, hk⟩).stop) ∧
    (∀ h0 : 0 < (chunkText docID text (n : Int) "split").length,
        ((chunkText docID text (n : Int) "split").get ⟨0, h0⟩).start = 0 ∧
        ((chunkText docID text (n : Int) "split").get
            ⟨(chunkText docID text (n : Int) "split").length - 1, by omega⟩).stop
          = (text.data.length : Int)) ∧
    (∀ k (hk : k < (chunkText docID text (n : Int) "split").length),
        k + 1 < (chunkText docID text (n : Int) "split").length →
        ((chunkText docID text (n : Int) "split").get ⟨k, hk⟩).stop
            - ((chunkText docID text (n : Int) "split").get ⟨k, hk⟩).start
          = (n : Int)) ∧
    (∀ k (hk : k < (chunkText docID text (n : Int) "split").length),
        k + 1 = (chunkText docID text (n : Int) "split").length →
        ((chunkText docID text (n : Int) "split").get ⟨k, hk⟩).stop
            - ((chunkText docID text (n : Int) "split").get ⟨k, hk⟩).start
          = (text.data.length : Int) - (k * n : Nat)) := by
  have hsplit : chunkText docID text (n : Int) "split"
      = splitLoop docID text.data (n : Int) 0 0 := by
    rw [chunkText]
    simp
  obtain ⟨hlen, hget⟩ := splitLoop_spec docID text.data (n : Int)
    (by exact_mod_cast hn) 0 le_rfl 0
  set L := splitLoop docID text.data (n : Int) 0 0 with hL
  rw [hsplit]
  have hlen' : L.length = (text.data.length + n - 1) / n := by
    rw [hlen]
    have : ((text.data.length : Int) - 0 + (n : Int) - 1)
        = ((text.data.length + n - 1 : Nat) : Int) := by
      omega
    rw [this, ← Int.ofNat_ediv]
    exact Int.toNat_ofNat _
  have hoff : ∀ k (hk : k < L.length),
      (L.get ⟨k, hk⟩).start = (k * n : Nat) ∧
      (L.get ⟨k, hk⟩).stop = (min ((k + 1) * n) text.data.length : Nat) := by
    intro k hk
    obtain ⟨h1, h2, _⟩ := hget k (L.get ⟨k, hk⟩) (by rw [List.get?_eq_get hk])
    constructor
    · rw [h1]; push_cast; ring
    · rw [h2]
      push_cast
      omega
  refine ⟨hlen', hoff, ?_, ?_, ?_, ?_, ?_⟩
  · intro k hk hk1
    obtain ⟨_, h2⟩ := hoff k hk
    obtain ⟨h3, _⟩ := hoff (k + 1) hk1
    rw [h2, h3]
    have hle : (k + 1) * n < text.data.length := by
      apply mul_lt_of_lt_ceilDiv text.data.length n (k + 1) hn
      omega
    have hm : min ((k + 1) * n) text.data.length = (k + 1) * n := by omega
    exact_mod_cast congrArg (Nat.cast : Nat → Int) hm
  · intro k hk
    obtain ⟨h1, h2⟩ := hoff k hk
    rw [h1, h2]
    have hlt : k * n < text.data.length := by
      apply mul_lt_of_lt_ceilDiv text.data.length n k hn
      omega
    have hkk : k * n < (k + 1) * n := by
      have h : (k + 1) * n = k * n + n := by ring
      omega
    have hm : k * n < min ((k + 1) * n) text.data.length := by omega
    exact_mod_cast hm
  · intro h0
    constructor
    · obtain ⟨h1, _⟩ := hoff 0 h0
      rw [h1]
      simp
    · obtain ⟨_, h2⟩ := hoff (L.length - 1) (by omega)
      rw [h2]
      have hle : text.data.length ≤ (L.length - 1 + 1) * n := by
        have hlast : L.length - 1 + 1 = L.length := by omega
        rw [hlast, hlen']
        exact le_ceilDiv_mul text.data.length n hn
      have hm : min ((L.length - 1 + 1) * n) text.data.length
          = text.data.length := by omega
      exact_mod_cast congrArg (Nat.cast : Nat → Int) hm
  · intro k hk hk1
    obtain ⟨h1, h2⟩ := hoff k hk
    rw [h1, h2]
    have hle : (k + 1) * n < text.data.length := by
      apply mul_lt_of_lt_ceilDiv text.data.length n (k + 1) hn
      omega
    have hm : min ((k + 1) * n) text.data.length = (k + 1) * n := by omega
    rw [hm]
    push_cast
    ring
  · intro k hk hk1
    obtain ⟨h1, h2⟩ := hoff k hk
    rw [h1, h2]
    have hle : text.data.length ≤ (k + 1) * n := by
      have h := le_ceilDiv_mul text.data.length n hn
      rw [← hlen'] at h
      rw [← hk1] at h
      exact h
    have hm : min ((k + 1) * n) text.data.length = text.data.length := by omega
    rw [hm]

/-- Witness for C3 at a concrete input: "abcde" with chunk size 2 yields
3 chunks. -/
theorem chunkText_split_covers_witness :
    (0 : Nat) < 2 ∧
    (chunkText "d" "abcde" (2 : Int) "split").length = (5 + 2 - 1) / 2 := by
  refine ⟨by norm_num, ?_⟩
  have h := chunkText_split_covers "d" "abcde" 2 (by norm_num)
  exact h.1

/-- A strategy other than the literal "truncate" takes chunkText's split
branch. -/
theorem chunkText_of_ne_truncate (docID text : String) (c : Int) (s : String)
    (hs : s ≠ "truncate") :
    chunkText docID text c s = chunkText docID text c "split" := by
  rw [chunkText, chunkText, if_neg hs, if_neg (by decide)]

/-- chunkText returns at least one chunk whenever the text is longer than
the (positive) chunk size, for every strategy string. -/
theorem chunkText_ne_nil (docID text : String) (c : Int) (s : String)
    (hc : 0 < c) (hlen : c < (text.data.length : Int)) :
    chunkText docID text c s ≠ [] := by
  rw [chunkText]
  split
  · simp
  · rw [splitLoop, dif_pos ⟨by omega, hc⟩]
    simp

/-- C5 counterexample: `GenerateEmbeddings` with the invalid strategy
literal "foo" does not behave like strategy "truncate" — on a 4-code-point
input with chunk size 2 it produces two chunks (split behavior) where
"truncate" produces one. -/
theorem generateEmbeddings_invalid_strategy_cex :
    GenerateEmbeddings (V := Unit) cfgMock genUnit (reqABCD "foo")
      ≠ GenerateEmbeddings (V := Unit) cfgMock genUnit (reqABCD "truncate") := by
  have hc : chunkText "doc" "abcd" 2 "foo"
      = [{ chunkID := "doc_0", text := ['a', 'b'], start := 0, stop := 2 },
         { chunkID := "doc_1", text := ['c', 'd'], start := 2, stop := 4 }] := by
    simp +decide [chunkText, splitLoop]
  have hf : GenerateEmbeddings (V := Unit) cfgMock genUnit (reqABCD "foo")
      = Except.ok
          { results :=
              [{ id := "doc",
                 embeddings := none,
                 chunks := some
                   [{ chunkID := "doc_0",
                      start := 0,
                      stop := 2,
                      textSnippet := ['a', 'b'],
                      embedding := () },
                    { chunkID := "doc_1",
                      start := 2,
                      stop := 4,
                      textSnippet := ['c', 'd'],
                      embedding := () }] }] } := by
    rw [GenerateEmbeddings,
      show effChunkSize cfgMock (reqABCD "foo") = 2 from rfl,
      show effStrategy (reqABCD "foo") = "foo" from rfl]
    dsimp only [reqABCD, List.map]
    rw [hc]
    decide
  have ht : GenerateEmbeddings (V := Unit) cfgMock genUnit (reqABCD "truncate")
      = Except.ok
          { results :=
              [{ id := "doc",
                 embeddings := none,
                 chunks := some
                   [{ chunkID := "doc_0",
                      start := 0,
                      stop := 2,
                      textSnippet := ['a', 'b'],
                      embedding := () }] }] } := by
    rw [GenerateEmbeddings,
      show effChunkSize cfgMock (reqABCD "truncate") = 2 from rfl,
      show effStrategy (reqABCD "truncate") = "truncate" from rfl]
    decide
  rw [hf, ht]
  decide

/-- C5 amended: the effective strategy is the caller-supplied value when it
is "truncate" or "split"; the empty string defaults to "truncate"; any
other (invalid, non-empty) literal behaves identically to "split", not to
"truncate". -/
theorem generateEmbeddings_strategy_spec {V : Type} (cfg : Config)
    (gen : String → Bool → V) (req : EmbedRequest) :
    (GenerateEmbeddings cfg gen { req with truncateStrategy := "" }
        = GenerateEmbeddings cfg gen { req with truncateStrategy := "truncate" }) ∧
    (∀ s, s ≠ "truncate" → s ≠ "" →
      GenerateEmbeddings cfg gen { req with truncateStrategy := s }
        = GenerateEmbeddings cfg gen { req with truncateStrategy := "split" }) := by
  have hcs : ∀ s, effChunkSize cfg { req with truncateStrategy := s }
      = effChunkSize cfg req := fun _ => rfl
  constructor
  · have h1 : effStrategy { req with truncateStrategy := "" } = "truncate" := by
      simp [effStrategy]
    have h2 : effStrategy { req with truncateStrategy := "truncate" }
        = "truncate" := by simp [effStrategy]
    rw [GenerateEmbeddings, GenerateEmbeddings, h1, h2, hcs "", hcs "truncate"]
  · intro s hs hs'
    have h1 : effStrategy { req with truncateStrategy := s } = s := by
      simp [effStrategy, hs']
    have h2 : effStrategy { req with truncateStrategy := "split" }
        = "split" := by simp [effStrategy]
    rw [GenerateEmbeddings, GenerateEmbeddings, h1, h2, hcs s, hcs "split"]
    refine congrArg _ (congrArg _ (List.map_congr_left ?_))
    intro input _
    by_cases hlen : ((input.text.data.length : Int) ≤ effChunkSize cfg req)
    · rw [if_pos hlen, if_pos hlen]
    · rw [if_neg hlen, if_neg hlen,
        chunkText_of_ne_truncate input.id input.text (effChunkSize cfg req) s hs,
        chunkText_of_ne_truncate input.id input.text (effChunkSize cfg req)
          "split" (by decide)]

/-- Witness for C5 amended, at the concrete invalid literal "foo". -/
theorem generateEmbeddings_strategy_spec_witness :
    GenerateEmbeddings (V := Unit) cfgMock genUnit
        { reqABCD "x" with truncateStrategy := "foo" }
      = GenerateEmbeddings (V := Unit) cfgMock genUnit
        { reqABCD "x" with truncateStrategy := "split" } :=
  (generateEmbeddings_strategy_spec cfgMock genUnit (reqABCD "x")).2 "foo"
    (by decide) (by decide)

/-- C7: for every input in a GenerateEmbeddings batch, the result carries
exactly one of the two payload forms — a single embedding vector when the
input's code-point length is at most the effective chunk size (chunks
absent), and a nonempty chunk sequence otherwise (single vector absent) —
and output order preserves input order (the i-th result echoes the i-th
input's id). -/
theorem generateEmbeddings_result_shape {V : Type} (cfg : Config)
    (gen : String → Bool → V) (req : EmbedRequest) (resp : EmbedResponse V)
    (hok : GenerateEmbeddings cfg gen req = .ok resp)
    (hcs : 0 < effChunkSize cfg req) :
    resp.results.length = req.inputs.length ∧
    ∀ k (hk : k < req.inputs.length) (hk' : k < resp.results.length),
      (resp.results.get ⟨k, hk'⟩).id = (req.inputs.get ⟨k, hk⟩).id ∧
      (((req.inputs.get ⟨k, hk⟩).text.data.length : Int)
            ≤ effChunkSize cfg req →
        (resp.results.get ⟨k, hk'⟩).embeddings.isSome = true ∧
        (resp.results.get ⟨k, hk'⟩).chunks = none) ∧
      (¬ ((req.inputs.get ⟨k, hk⟩).text.data.length : Int)
            ≤ effChunkSize cfg req →
        (resp.results.get ⟨k, hk'⟩).embeddings = none ∧
        ∃ cl, (resp.results.get ⟨k, hk'⟩).chunks = some cl ∧ cl ≠ []) := by
  rw [GenerateEmbeddings, Except.ok.injEq] at hok
  subst hok
  constructor
  · simp
  · intro k hk hk'
    have hget : ∀ f : InputItem → EmbedResult V,
        ((req.inputs.map f).get ⟨k, by simpa using hk⟩)
          = f (req.inputs.get ⟨k, hk⟩) := by
      intro f
      simp
    refine ⟨?_, ?_, ?_⟩
    · rw [hget]
      by_cases hlen : (((req.inputs.get ⟨k, hk⟩).text.data.length : Int)
          ≤ effChunkSize cfg req)
      · rw [if_pos hlen]
      · rw [if_neg hlen]
    · intro hlen
      rw [hget, if_pos hlen]
      exact ⟨rfl, rfl⟩
    · intro hlen
      rw [hget, if_neg hlen]
      refine ⟨rfl, _, rfl, ?_⟩
      have hne := chunkText_ne_nil (req.inputs.get ⟨k, hk⟩).id
        (req.inputs.get ⟨k, hk⟩).text (effChunkSize cfg req)
        (effStrategy req) hcs (by omega)
      simpa using hne

/-- Witness for C7: a one-input batch where the text fits in a single
chunk. -/
theorem generateEmbeddings_result_shape_witness :
    (GenerateEmbeddings (V := Unit)
        { embeddingProvider := "mock", embeddingDimension := 4,
          maxChunkSize := 10, defaultChunkSize := 5 }
        (fun _ _ => ())
        { model := "m", inputs := [{ id := "doc1", text := "hi" }],
          truncateStrategy := "split", chunkSize := 5, normalize := true }
      = Except.ok { results := [{ id := "doc1", embeddings := some (),
                                  chunks := none }] }) ∧
    ((({ results := [{ id := "doc1", embeddings := some (),
                       chunks := none }] } : EmbedResponse Unit)).results.length
      = 1) := by
  constructor
  · decide
  · have h := generateEmbeddings_result_shape
      { embeddingProvider := "mock", embeddingDimension := 4,
        maxChunkSize := 10, defaultChunkSize := 5 }
      (fun _ _ => ())
      { model := "m", inputs := [{ id := "doc1", text := "hi" }],
        truncateStrategy := "split", chunkSize := 5, normalize := true }
      { results := [{ id := "doc1", embeddings := some (), chunks := none }] }
      (by decide) (by decide)
    exact h.1

/-- normalizeL2 preserves vector length. -/
theorem normalizeL2_length (vec : List ℝ) :
    (normalizeL2 vec).length = vec.length := by
  rw [normalizeL2]
  split
  · rfl
  · simp

/-- mockEmbedding always returns `dimension` components. -/
theorem mockEmbedding_length (draw : String → Nat → ℝ) (text : String)
    (dimension : Int) (nz : Bool) :
    (mockEmbedding draw text dimension nz).length = dimension.toNat := by
  rw [mockEmbedding]
  split
  · rw [normalizeL2_length]
    simp
  · simp

/-- C6 counterexample: with provider "ollama" and a successful remote call
returning an empty vector, generateEmbedding returns a vector whose length
(0) differs from the configured dimension (1): the remote vector is passed
through unchecked. -/
theorem generateEmbedding_dimension_cex :
    ¬ ((generateEmbedding
          { embeddingProvider := "ollama", embeddingDimension := 1,
            maxChunkSize := 10, defaultChunkSize := 2 }
          (fun _ _ => 0) (fun _ => .ok []) "t" false).length
        = ({ embeddingProvider := "ollama", embeddingDimension := 1,
             maxChunkSize := 10, defaultChunkSize := 2 } :
              Config).embeddingDimension.toNat) := by
  rw [generateEmbedding]
  simp

/-- C6 amended: generateEmbedding returns a vector of the configured
dimension whenever the provider is not "ollama" or the remote ollama call
fails (the mock fallback); when the ollama call succeeds, the returned
vector has the length of the remote vector, which the code does not check
against the configured dimension. -/
theorem generateEmbedding_dimension_spec (cfg : Config)
    (draw : String → Nat → ℝ) (ollama : String → Except String (List ℝ))
    (text : String) (nz : Bool) :
    (cfg.embeddingProvider ≠ "ollama" →
      (generateEmbedding cfg draw ollama text nz).length
        = cfg.embeddingDimension.toNat) ∧
    (∀ msg, ollama text = .error msg →
      (generateEmbedding cfg draw ollama text nz).length
        = cfg.embeddingDimension.toNat) ∧
    (∀ emb, ollama text = .ok emb → cfg.embeddingProvider = "ollama" →
      (generateEmbedding cfg draw ollama text nz).length = emb.length) := by
  refine ⟨?_, ?_, ?_⟩
  · intro hp
    rw [generateEmbedding, if_neg hp]
    split
    · exact mockEmbedding_length draw text cfg.embeddingDimension nz
    · exact mockEmbedding_length draw text cfg.embeddingDimension nz
  · intro msg hmsg
    rw [generateEmbedding]
    by_cases hp : cfg.embeddingProvider = "ollama"
    · rw [if_pos hp, hmsg]
      exact mockEmbedding_length draw text cfg.embeddingDimension nz
    · rw [if_neg hp]
      split
      · exact mockEmbedding_length draw text cfg.embeddingDimension nz
      · exact mockEmbedding_length draw text cfg.embeddingDimension nz
  · intro emb hemb hp
    rw [generateEmbedding, if_pos hp, hemb]
    cases nz
    · rfl
    · exact normalizeL2_length emb

/-- Witness for C6 amended: mock provider, dimension 3. -/
theorem generateEmbedding_dimension_spec_witness :
    (generateEmbedding
        { embeddingProvider := "mock", embeddingDimension := 3,
          maxChunkSize := 10, defaultChunkSize := 2 }
        (fun _ _ => 0) (fun _ => .error "down") "t" false).length = 3 :=
  (generateEmbedding_dimension_spec
      { embeddingProvider := "mock", embeddingDimension := 3,
        maxChunkSize := 10, defaultChunkSize := 2 }
      (fun _ _ => 0) (fun _ => .error "down") "t" false).1 (by decide)

/-- C8: normalizeL2 applied to a vector whose computed Euclidean norm is
exactly zero returns that vector unchanged (the division branch is never
taken); in particular the all-zero vector of any length is returned
unchanged. -/
theorem normalizeL2_zero_norm (vec : List ℝ) (hnorm : vecNorm vec = 0) :
    normalizeL2 vec = vec := by
  rw [normalizeL2]
  rw [vecNorm] at hnorm
  exact if_pos hnorm

/-- Witness for C8: the all-zero three-component vector. -/
theorem normalizeL2_zero_norm_witness :
    vecNorm [(0 : ℝ), 0, 0] = 0 ∧
    normalizeL2 [(0 : ℝ), 0, 0] = [(0 : ℝ), 0, 0] := by
  have h0 : vecNorm [(0 : ℝ), 0, 0] = 0 := by
    rw [vecNorm]
    norm_num
  exact ⟨h0, normalizeL2_zero_norm [(0 : ℝ), 0, 0] h0⟩

/-- Progress values `a * 100 / total` are nonnegative. -/
theorem prog_nonneg (a t : Nat) : 0 ≤ ((a : Int) * 100) / (t : Int) :=
  Int.ediv_nonneg (by positivity) (by positivity)

/-- Progress values are monotone in the completed-file count. -/
theorem prog_mono (a b t : Nat) (h : a ≤ b) :
    ((a : Int) * 100) / (t : Int) ≤ ((b : Int) * 100) / (t : Int) := by
  rcases Nat.eq_zero_or_pos t with ht | ht
  · subst ht
    simp
  · apply Int.ediv_le_ediv (by exact_mod_cast ht)
    have : (a : Int) ≤ (b : Int) := by exact_mod_cast h
    nlinarith

/-- All files done means progress 100. -/
theorem prog_total (t : Nat) (ht : 0 < t) :
    ((t : Int) * 100) / (t : Int) = 100 := by
  rw [mul_comm]
  exact Int.mul_ediv_cancel _ (by exact_mod_cast ht.ne')

/-- Progress stays at most 100. -/
theorem prog_le_100 (a t : Nat) (h : a ≤ t) :
    ((a : Int) * 100) / (t : Int) ≤ 100 := by
  rcases Nat.eq_zero_or_pos t with ht | ht
  · subst ht
    simp
  · calc ((a : Int) * 100) / (t : Int)
        ≤ ((t : Int) * 100) / (t : Int) := prog_mono a t t h
      _ = 100 := prog_total t ht

/-- Progress is strictly below 100 while files remain. -/
theorem prog_lt_100 (a t : Nat) (h : a < t) :
    ((a : Int) * 100) / (t : Int) < 100 := by
  have ht : (0 : Int) < (t : Int) := by
    have : 0 < t := by omega
    exact_mod_cast this
  rw [Int.ediv_lt_iff_lt_mul ht]
  have : (a : Int) < (t : Int) := by exact_mod_cast h
  nlinarith

/-- Progress 100 is reached only when all files are done. -/
theorem prog_eq_100 (a t : Nat) (h : a ≤ t)
    (heq : ((a : Int) * 100) / (t : Int) = 100) : a = t := by
  by_contra hne
  have hlt : a < t := lt_of_le_of_ne h hne
  exact absurd heq (ne_of_lt (prog_lt_100 a t hlt))

/-- An `Except` that `isOk` is an `ok`. -/
theorem exceptIsOk_exists {ε α : Type} (x : Except ε α) (h : x.isOk = true) :
    ∃ a, x = Except.ok a := by
  cases x
  · simp [Except.isOk, Except.toBool] at h
  · exact ⟨_, rfl⟩

/-- Unfolding step of the file loop on an empty list. -/
theorem procFiles_nil {V : Type} (cfg : Config)
    (embedF : EmbedRequest → Except String (EmbedResponse V))
    (download : Nat → String → Except String (List Nat × String))
    (total : Nat) (job : Job) (i : Nat) (acc : List (EmbedResponse V)) :
    procFiles cfg embedF download total job i [] acc = (job, [], [], some acc) :=
  rfl

/-- Unfolding step of the file loop when the current file's stage fails. -/
theorem procFiles_cons_err {V : Type} (cfg : Config)
    (embedF : EmbedRequest → Except String (EmbedResponse V))
    (download : Nat → String → Except String (List Nat × String))
    (total : Nat) (job : Job) (i : Nat) (url : String) (rest : List String)
    (acc : List (EmbedResponse V)) (e : Err)
    (h : fileResult cfg embedF download i url job.model = .error e) :
    procFiles cfg embedF download total job i (url :: rest) acc
      = ({ job with status := "failed", error := some e },
         [{ job with status := "failed", error := some e }],
         [{ job with status := "failed", error := some e }], none) := by
  rw [procFiles, h]

/-- Unfolding step of the file loop when the current file succeeds. -/
theorem procFiles_cons_ok {V : Type} (cfg : Config)
    (embedF : EmbedRequest → Except String (EmbedResponse V))
    (download : Nat → String → Except String (List Nat × String))
    (total : Nat) (job : Job) (i : Nat) (url : String) (rest : List String)
    (acc : List (EmbedResponse V)) (resp : EmbedResponse V)
    (h : fileResult cfg embedF download i url job.model = .ok resp) :
    procFiles cfg embedF download total job i (url :: rest) acc
      = (let j := { job with progress := ((i : Int) + 1) * 100 / (total : Int) }
         let r := procFiles cfg embedF download total j (i + 1) rest (acc ++ [resp])
         (r.1, j :: r.2.1, r.2.2.1, r.2.2.2)) := by
  rw [procFiles, h]

/-- Master characterization of the file loop's registry writes, proved by
induction on the remaining files under the loop invariants
`i + files.length = total` and "the job's progress is `i` files' worth".
Every write keeps the job's result urls and is either a progress write
(status and error untouched, progress advanced to one more file's worth) or
the sole, final, failure write (status failed, error produced by
`fileResult` for the failing file, progress unchanged, callback invoked
exactly once); on full success no callback is invoked and the returned job
value carries all-files progress with status, error and result urls
untouched. -/
theorem procFiles_spec {V : Type} (cfg : Config)
    (embedF : EmbedRequest → Except String (EmbedResponse V))
    (download : Nat → String → Except String (List Nat × String))
    (total : Nat) :
    ∀ (files : List String) (i : Nat) (job : Job) (acc : List (EmbedResponse V))
      (jf : Job) (ws cbs : List Job) (res : Option (List (EmbedResponse V))),
    i + files.length = total →
    job.progress = ((i : Int) * 100) / (total : Int) →
    procFiles cfg embedF download total job i files acc = (jf, ws, cbs, res) →
    (List.Chain' (fun a b => a.progress ≤ b.progress) (job :: ws) ∧
     (∀ k w, ws.get? k = some w →
        0 ≤ w.progress ∧ w.progress ≤ 100 ∧
        w.resultURLs = job.resultURLs ∧
        ((w.status = job.status ∧ w.error = job.error ∧
            w.progress = (((i + k + 1 : Nat) : Int) * 100) / (total : Int) ∧
            i + k + 1 ≤ total) ∨
         (w.status = "failed" ∧
            w.progress = (((i + k : Nat) : Int) * 100) / (total : Int) ∧
            i + k < total ∧ k + 1 = ws.length ∧
            ∃ e url, w.error = some e ∧
              fileResult cfg embedF download (i + k) url job.model
                = .error e))) ∧
     (∀ resl, res = some resl →
        jf.status = job.status ∧ jf.error = job.error ∧
        jf.resultURLs = job.resultURLs ∧ jf.files = job.files ∧
        jf.progress = ((total : Int) * 100) / (total : Int) ∧
        cbs = [] ∧
        ((ws = [] ∧ jf = job) ∨ ws.get? (ws.length - 1) = some jf)) ∧
     (res = none →
        ∃ w, ws.get? (ws.length - 1) = some w ∧ cbs = [w] ∧
          w.status = "failed")) := by
  intro files
  induction files with
  | nil =>
    intro i job acc jf ws cbs res hi hp heq
    rw [procFiles_nil] at heq
    simp only [Prod.mk.injEq] at heq
    obtain ⟨h1, h2, h3, h4⟩ := heq
    subst h1
    subst h2
    subst h3
    subst h4
    refine ⟨List.chain'_singleton _, ?_, ?_, ?_⟩
    · intro k w hw
      simp at hw
    · intro resl _
      have hit : i = total := by
        simpa using hi
      subst hit
      exact ⟨rfl, rfl, rfl, rfl, by rw [hp], rfl, Or.inl ⟨rfl, rfl⟩⟩
    · intro hnone
      simp at hnone
  | cons url rest ih =>
    intro i job acc jf ws cbs res hi hp heq
    have htot : 0 < total := by
      simp only [List.length_cons] at hi
      omega
    cases hfr : fileResult cfg embedF download i url job.model with
    | error e =>
      rw [procFiles_cons_err cfg embedF download total job i url rest acc e hfr]
        at heq
      simp only [Prod.mk.injEq] at heq
      obtain ⟨h1, h2, h3, h4⟩ := heq
      subst h1
      subst h2
      subst h3
      subst h4
      have hprog0 : 0 ≤ job.progress := by
        rw [hp]
        exact prog_nonneg i total
      have hprog100 : job.progress ≤ 100 := by
        rw [hp]
        apply prog_le_100
        simp only [List.length_cons] at hi
        omega
      refine ⟨?_, ?_, ?_, ?_⟩
      · exact List.chain'_cons.mpr ⟨le_refl _, List.chain'_singleton _⟩
      · intro k w hw
        match k with
        | 0 =>
          simp only [List.get?_cons_zero, Option.some.injEq] at hw
          subst hw
          refine ⟨hprog0, hprog100, rfl, Or.inr ⟨rfl, ?_, ?_, rfl, e, url, rfl, ?_⟩⟩
          · simpa using hp
          · simp only [List.length_cons] at hi
            omega
          · simpa using hfr
        | k + 1 =>
          simp at hw
      · intro resl hres
        simp at hres
      · intro _
        exact ⟨_, rfl, rfl, rfl⟩
    | ok resp =>
      rw [procFiles_cons_ok cfg embedF download total job i url rest acc resp hfr]
        at heq
      simp only [Prod.mk.injEq] at heq
      obtain ⟨h1, h2, h3, h4⟩ := heq
      subst h1
      subst h2
      subst h3
      subst h4
      have hstep := ih (i + 1)
        { job with progress := ((i : Int) + 1) * 100 / (total : Int) }
        (acc ++ [resp]) _ _ _ _
        (by simp only [List.length_cons] at hi; omega)
        (by push_cast; ring_nf) rfl
      obtain ⟨ihA, ihB, ihC, ihD⟩ := hstep
      have hle1 : i + 1 ≤ total := by
        simp only [List.length_cons] at hi
        omega
      have hj1prog0 : (0 : Int) ≤ ((i : Int) + 1) * 100 / (total : Int) := by
        have := prog_nonneg (i + 1) total
        push_cast at this
        exact this
      have hj1prog100 : ((i : Int) + 1) * 100 / (total : Int) ≤ 100 := by
        have := prog_le_100 (i + 1) total hle1
        push_cast at this
        exact this
      refine ⟨?_, ?_, ?_, ?_⟩
      · refine List.chain'_cons.mpr ⟨?_, ihA⟩
        rw [hp]
        have := prog_mono i (i + 1) total (by omega)
        push_cast at this
        exact this
      · intro k w hw
        match k with
        | 0 =>
          simp only [List.get?_cons_zero, Option.some.injEq] at hw
          subst hw
          refine ⟨hj1prog0, hj1prog100, rfl, Or.inl ⟨rfl, rfl, ?_, by omega⟩⟩
          push_cast
          ring_nf
        | k + 1 =>
          simp only [List.get?_cons_succ] at hw
          obtain ⟨hb1, hb2, hb3, hb4⟩ := ihB k w hw
          refine ⟨hb1, hb2, hb3, ?_⟩
          rcases hb4 with ⟨hs, he, hpr, hle⟩ | ⟨hs, hpr, hlt, hlen, e, u, he, hfe⟩
          · left
            refine ⟨hs, he, ?_, by omega⟩
            rw [hpr]
            congr 2
            omega
          · right
            refine ⟨hs, ?_, by omega, by simp [← hlen], e, u, he, ?_⟩
            · rw [hpr]
              congr 2
              omega
            · have hidx : i + 1 + k = i + (k + 1) := by omega
              rw [← hidx]
              exact hfe
      · intro resl hres
        obtain ⟨hc1, hc2, hc3, hc4, hc5, hc6, hc7⟩ := ihC resl hres
        refine ⟨hc1, hc2, hc3, hc4, hc5, hc6, Or.inr ?_⟩
        rcases hc7 with ⟨hwnil, hjf⟩ | hlast
        · rw [hwnil, hjf]
          rfl
        · have hne : (procFiles cfg embedF download total
              { job with progress := ((i : Int) + 1) * 100 / (total : Int) }
              (i + 1) rest (acc ++ [resp])).2.1 ≠ [] := by
            intro hnil
            rw [hnil] at hlast
            simp at hlast
          rw [List.length_cons]
          have hlen1 : (procFiles cfg embedF download total
              { job with progress := ((i : Int) + 1) * 100 / (total : Int) }
              (i + 1) rest (acc ++ [resp])).2.1.length - 1 + 1
              = (procFiles cfg embedF download total
              { job with progress := ((i : Int) + 1) * 100 / (total : Int) }
              (i + 1) rest (acc ++ [resp])).2.1.length := by
            have := List.length_pos.mpr hne
            omega
          rw [show ((procFiles cfg embedF download total
              { job with progress := ((i : Int) + 1) * 100 / (total : Int) }
              (i + 1) rest (acc ++ [resp])).2.1.length + 1 - 1)
            = ((procFiles cfg embedF download total
              { job with progress := ((i : Int) + 1) * 100 / (total : Int) }
              (i + 1) rest (acc ++ [resp])).2.1.length - 1) + 1 by omega]
          rw [List.get?_cons_succ]
          exact hlast
      · intro hnone
        obtain ⟨w, hwlast, hcbs, hwst⟩ := ihD hnone
        have hne : (procFiles cfg embedF download total
            { job with progress := ((i : Int) + 1) * 100 / (total : Int) }
            (i + 1) rest (acc ++ [resp])).2.1 ≠ [] := by
          intro hnil
          rw [hnil] at hwlast
          simp at hwlast
        refine ⟨w, ?_, hcbs, hwst⟩
        rw [List.length_cons]
        rw [show ((procFiles cfg embedF download total
            { job with progress := ((i : Int) + 1) * 100 / (total : Int) }
            (i + 1) rest (acc ++ [resp])).2.1.length + 1 - 1)
          = ((procFiles cfg embedF download total
            { job with progress := ((i : Int) + 1) * 100 / (total : Int) }
            (i + 1) rest (acc ++ [resp])).2.1.length - 1) + 1 by
            have := List.length_pos.mpr hne
            omega]
        rw [List.get?_cons_succ]
        exact hwlast

/-- processJob when some file stage fails: the trace is the running write,
the loop's writes, and nothing else; nothing is persisted. -/
theorem processJob_loopfail {V : Type} (cfg : Config)
    (embedF : EmbedRequest → Except String (EmbedResponse V))
    (download : Nat → String → Except String (List Nat × String))
    (save : List (EmbedResponse V) → Except String Unit) (job0 : Job)
    (hres : (procFiles cfg embedF download job0.files.length
        { job0 with status := "running", progress := 0 } 0 job0.files []).2.2.2
      = none) :
    processJob cfg embedF download save (some job0)
      = ({ job0 with status := "running", progress := 0 }
            :: (procFiles cfg embedF download job0.files.length
                { job0 with status := "running", progress := 0 }
                0 job0.files []).2.1,
         (procFiles cfg embedF download job0.files.length
                { job0 with status := "running", progress := 0 }
                0 job0.files []).2.2.1,
         none) := by
  rw [processJob]
  rw [hres]

/-- processJob when every file succeeds but persisting the results fails:
a final storage_failed write and callback are appended. -/
theorem processJob_savefail {V : Type} (cfg : Config)
    (embedF : EmbedRequest → Except String (EmbedResponse V))
    (download : Nat → String → Except String (List Nat × String))
    (save : List (EmbedResponse V) → Except String Unit) (job0 : Job)
    (resl : List (EmbedResponse V)) (msg : String)
    (hres : (procFiles cfg embedF download job0.files.length
        { job0 with status := "running", progress := 0 } 0 job0.files []).2.2.2
      = some resl)
    (hsave : save resl = .error msg) :
    processJob cfg embedF download save (some job0)
      = ({ job0 with status := "running", progress := 0 }
            :: (procFiles cfg embedF download job0.files.length
                { job0 with status := "running", progress := 0 }
                0 job0.files []).2.1
            ++ [{ (procFiles cfg embedF download job0.files.length
                    { job0 with status := "running", progress := 0 }
                    0 job0.files []).1 with
                  status := "failed",
                  error := some (Err.mk "storage_failed" msg) }],
         (procFiles cfg embedF download job0.files.length
                { job0 with status := "running", progress := 0 }
                0 job0.files []).2.2.1
            ++ [{ (procFiles cfg embedF download job0.files.length
                    { job0 with status := "running", progress := 0 }
                    0 job0.files []).1 with
                  status := "failed",
                  error := some (Err.mk "storage_failed" msg) }],
         none) := by
  rw [processJob]
  rw [hres]
  dsimp only
  rw [hsave]

/-- processJob when every file succeeds and the results are persisted: a
final completed write (progress 100, result url attached) and callback are
appended, and the accumulated results are persisted. -/
theorem processJob_saveok {V : Type} (cfg : Config)
    (embedF : EmbedRequest → Except String (EmbedResponse V))
    (download : Nat → String → Except String (List Nat × String))
    (save : List (EmbedResponse V) → Except String Unit) (job0 : Job)
    (resl : List (EmbedResponse V))
    (hres : (procFiles cfg embedF download job0.files.length
        { job0 with status := "running", progress := 0 } 0 job0.files []).2.2.2
      = some resl)
    (hsave : save resl = .ok ()) :
    processJob cfg embedF download save (some job0)
      = ({ job0 with status := "running", progress := 0 }
            :: (procFiles cfg embedF download job0.files.length
                { job0 with status := "running", progress := 0 }
                0 job0.files []).2.1
            ++ [{ (procFiles cfg embedF download job0.files.length
                    { job0 with status := "running", progress := 0 }
                    0 job0.files []).1 with
                  status := "completed", progress := 100,
                  resultURLs := ["/v1/results/" ++ job0.jobID
                    ++ "_results.json"] }],
         (procFiles cfg embedF download job0.files.length
                { job0 with status := "running", progress := 0 }
                0 job0.files []).2.2.1
            ++ [{ (procFiles cfg embedF download job0.files.length
                    { job0 with status := "running", progress := 0 }
                    0 job0.files []).1 with
                  status := "completed", progress := 100,
                  resultURLs := ["/v1/results/" ++ job0.jobID
                    ++ "_results.json"] }],
         some resl) := by
  rw [processJob]
  rw [hres]
  dsimp only
  rw [hsave]

/-- C1 amended: over a processJob execution the registry writes have
non-decreasing progress in [0, 100], never status "queued", and a write
stores progress 100 only once every file has been processed: such a write
has status "completed", status "failed" with error code "storage_failed"
(result persistence failed after all files were embedded), or status
"running" at the write issued immediately after the final file — the
original claim fails on the last two forms. -/
theorem processJob_progress_spec {V : Type} (cfg : Config)
    (embedF : EmbedRequest → Except String (EmbedResponse V))
    (download : Nat → String → Except String (List Nat × String))
    (save : List (EmbedResponse V) → Except String Unit) (job0 : Job) :
    List.Chain' (fun a b => a.progress ≤ b.progress)
      (processJob cfg embedF download save (some job0)).1 ∧
    (∀ w ∈ (processJob cfg embedF download save (some job0)).1,
      0 ≤ w.progress ∧ w.progress ≤ 100 ∧ w.status ≠ "queued") ∧
    (∀ k w,
      (processJob cfg embedF download save (some job0)).1.get? k = some w →
      w.progress = 100 →
      w.status = "completed" ∨
      (w.status = "failed" ∧ ∃ m, w.error = some (Err.mk "storage_failed" m)) ∨
      (w.status = "running" ∧ k = job0.files.length ∧
        0 < job0.files.length)) := by
  set J : Job := { job0 with status := "running", progress := 0 } with hJ
  set R := procFiles cfg embedF download job0.files.length J 0 job0.files
    ([] : List (EmbedResponse V)) with hR
  obtain ⟨hA, hB, hC, hD⟩ := procFiles_spec cfg embedF download
    job0.files.length job0.files 0 J [] R.1 R.2.1 R.2.2.1 R.2.2.2
    (by simp) (by rw [hJ]; simp) rfl
  -- the loop-write classification, shared by all three terminal branches
  have hmidPQ : ∀ w ∈ R.2.1,
      0 ≤ w.progress ∧ w.progress ≤ 100 ∧ w.status ≠ "queued" := by
    intro w hw
    obtain ⟨n, hn⟩ := List.get?_of_mem hw
    obtain ⟨hb1, hb2, _, hb4⟩ := hB n w hn
    refine ⟨hb1, hb2, ?_⟩
    rcases hb4 with ⟨hs, _⟩ | ⟨hs, _⟩
    · rw [hs]
      exact (by decide : ("running" : String) ≠ "queued")
    · rw [hs]
      decide
  have hmid100 : ∀ k w, R.2.1.get? k = some w → w.progress = 100 →
      w.status = "completed" ∨
      (w.status = "failed" ∧ ∃ m, w.error = some (Err.mk "storage_failed" m)) ∨
      (w.status = "running" ∧ k + 1 = job0.files.length ∧
        0 < job0.files.length) := by
    intro k w hk h100
    obtain ⟨_, _, _, hb4⟩ := hB k w hk
    rcases hb4 with ⟨hs, _, hpr, hle⟩ | ⟨_, hpr, hlt, _⟩
    · right; right
      rw [hJ] at hs
      simp at hs
      have heq : 0 + k + 1 = job0.files.length :=
        prog_eq_100 (0 + k + 1) job0.files.length hle (by rw [← hpr, h100])
      exact ⟨hs, by omega, by omega⟩
    · rw [hpr] at h100
      exact absurd h100 (ne_of_lt (prog_lt_100 (0 + k) job0.files.length hlt))
  have hJprog : J.progress = 0 := by rw [hJ]
  have hJstat : J.status = "running" := by rw [hJ]
  cases hres : R.2.2.2 with
  | none =>
    rw [processJob_loopfail cfg embedF download save job0 hres, ← hJ, ← hR]
    refine ⟨hA, ?_, ?_⟩
    · intro w hw
      rcases List.mem_cons.mp hw with rfl | hw'
      · rw [hJprog, hJstat]
        refine ⟨le_refl 0, by norm_num, by decide⟩
      · exact hmidPQ w hw'
    · intro k w hk h100
      match k with
      | 0 =>
        simp only [List.get?_cons_zero, Option.some.injEq] at hk
        rw [← hk, hJprog] at h100
        simp at h100
      | k + 1 =>
        simp only [List.get?_cons_succ] at hk
        rcases hmid100 k w hk h100 with h | h | ⟨h1, h2, h3⟩
        · exact Or.inl h
        · exact Or.inr (Or.inl h)
        · exact Or.inr (Or.inr ⟨h1, by omega, h3⟩)
  | some resl =>
    obtain ⟨hc1, hc2, hc3, hc4, hc5, hc6, hc7⟩ := hC resl hres
    have hfin0 : 0 ≤ R.1.progress := by
      rw [hc5]
      exact prog_nonneg _ _
    have hfin100 : R.1.progress ≤ 100 := by
      rw [hc5]
      exact prog_le_100 _ _ le_rfl
    have hlastlink : ∀ x ∈ (J :: R.2.1).getLast?, x.progress ≤ R.1.progress := by
      intro x hx
      rw [List.getLast?_eq_get?] at hx
      rcases hc7 with ⟨hwnil, hjf⟩ | hlast
      · rw [hwnil] at hx
        simp at hx
        rw [← hx, hjf]
      · have hne : R.2.1 ≠ [] := by
          intro hnil
          rw [hnil] at hlast
          simp at hlast
        have hpos := List.length_pos.mpr hne
        simp only [List.length_cons] at hx
        rw [show R.2.1.length + 1 - 1 = (R.2.1.length - 1) + 1 by omega] at hx
        rw [List.get?_cons_succ, hlast] at hx
        simp at hx
        rw [← hx]
    have hlenc : (J :: R.2.1).length = R.2.1.length + 1 := List.length_cons _ _
    cases hsave : save resl with
    | error msg =>
      rw [processJob_savefail cfg embedF download save job0 resl msg hres hsave,
        ← hJ, ← hR]
      refine ⟨?_, ?_, ?_⟩
      · refine List.chain'_append.mpr ⟨hA, List.chain'_singleton _, ?_⟩
        intro x hx y hy
        simp only [List.head?_cons, Option.mem_def, Option.some.injEq] at hy
        rw [← hy]
        simpa using hlastlink x hx
      · intro w hw
        rcases List.mem_append.mp hw with hw1 | hw2
        · rcases List.mem_cons.mp hw1 with rfl | hw'
          · rw [hJprog, hJstat]
            refine ⟨le_refl 0, by norm_num, by decide⟩
          · exact hmidPQ w hw'
        · simp only [List.mem_singleton] at hw2
          subst hw2
          refine ⟨by simpa using hfin0, by simpa using hfin100, by simp⟩
      · intro k w hk h100
        by_cases hkl : k < R.2.1.length + 1
        · rw [List.get?_append (by rw [hlenc]; omega)] at hk
          match k with
          | 0 =>
            simp only [List.get?_cons_zero, Option.some.injEq] at hk
            rw [← hk, hJprog] at h100
            simp at h100
          | k + 1 =>
            simp only [List.get?_cons_succ] at hk
            rcases hmid100 k w hk h100 with h | h | ⟨h1, h2, h3⟩
            · exact Or.inl h
            · exact Or.inr (Or.inl h)
            · exact Or.inr (Or.inr ⟨h1, by omega, h3⟩)
        · rw [List.get?_append_right (by rw [hlenc]; omega), hlenc] at hk
          rcases hkd : k - (R.2.1.length + 1) with _ | d
          · rw [hkd] at hk
            simp only [List.get?_cons_zero, Option.some.injEq] at hk
            right; left
            rw [← hk]
            exact ⟨rfl, msg, rfl⟩
          · rw [hkd] at hk
            simp at hk
    | ok u =>
      cases u
      rw [processJob_saveok cfg embedF download save job0 resl hres hsave,
        ← hJ, ← hR]
      refine ⟨?_, ?_, ?_⟩
      · refine List.chain'_append.mpr ⟨hA, List.chain'_singleton _, ?_⟩
        intro x hx y hy
        simp only [List.head?_cons, Option.mem_def, Option.some.injEq] at hy
        rw [← hy]
        simpa using le_trans (hlastlink x hx) hfin100
      · intro w hw
        rcases List.mem_append.mp hw with hw1 | hw2
        · rcases List.mem_cons.mp hw1 with rfl | hw'
          · rw [hJprog, hJstat]
            refine ⟨le_refl 0, by norm_num, by decide⟩
          · exact hmidPQ w hw'
        · simp only [List.mem_singleton] at hw2
          subst hw2
          exact ⟨(by norm_num : (0 : Int) ≤ 100),
            (by norm_num : (100 : Int) ≤ 100),
            (by decide : ("completed" : String) ≠ "queued")⟩
      · intro k w hk h100
        by_cases hkl : k < R.2.1.length + 1
        · rw [List.get?_append (by rw [hlenc]; omega)] at hk
          match k with
          | 0 =>
            simp only [List.get?_cons_zero, Option.some.injEq] at hk
            rw [← hk, hJprog] at h100
            simp at h100
          | k + 1 =>
            simp only [List.get?_cons_succ] at hk
            rcases hmid100 k w hk h100 with h | h | ⟨h1, h2, h3⟩
            · exact Or.inl h
            · exact Or.inr (Or.inl h)
            · exact Or.inr (Or.inr ⟨h1, by omega, h3⟩)
        · rw [List.get?_append_right (by rw [hlenc]; omega), hlenc] at hk
          rcases hkd : k - (R.2.1.length + 1) with _ | d
          · rw [hkd] at hk
            simp only [List.get?_cons_zero, Option.some.injEq] at hk
            left
            rw [← hk]
          · rw [hkd] at hk
            simp at hk

/-- C1 counterexample: a one-file job that succeeds.  The registry write at
index 1 (issued by the progress update after the final file, before
saveResults runs) stores progress 100 together with status "running",
contradicting "progress equals 100 only when the status is completed". -/
theorem processJob_progress100_running_cex :
    ((processJob cfgMock (GenerateEmbeddings (V := Unit) cfgMock genUnit)
        (fun _ _ => Except.ok ([104, 105], "a.txt"))
        (fun _ => Except.ok ())
        (some (CreateJob "j1" ["a.txt"] "m" ""))).1.get? 1).map
      (fun w => (w.status, w.progress)) = some ("running", 100) := by
  decide

/-- Witness for C1 amended: the progress-100 "running" write of the
counterexample trace falls under the amended classification (it is the
write at index 1 = the number of files). -/
theorem processJob_progress_spec_witness :
    ((processJob cfgMock (GenerateEmbeddings (V := Unit) cfgMock genUnit)
        (fun _ _ => Except.ok ([104, 105], "a.txt")) (fun _ => Except.ok ())
        (some (CreateJob "j1" ["a.txt"] "m" ""))).1.get? 1
      = some { jobID := "j1", status := "running", progress := 100,
               files := ["a.txt"], model := "m", resultURLs := [],
               error := none, callbackURL := "" }) ∧
    (({ jobID := "j1", status := "running", progress := 100,
        files := ["a.txt"], model := "m", resultURLs := [],
        error := none, callbackURL := "" } : Job).status = "completed" ∨
     (({ jobID := "j1", status := "running", progress := 100,
         files := ["a.txt"], model := "m", resultURLs := [],
         error := none, callbackURL := "" } : Job).status = "failed" ∧
       ∃ m, ({ jobID := "j1", status := "running", progress := 100,
               files := ["a.txt"], model := "m", resultURLs := [],
               error := none, callbackURL := "" } : Job).error
             = some (Err.mk "storage_failed" m)) ∨
     (({ jobID := "j1", status := "running", progress := 100,
         files := ["a.txt"], model := "m", resultURLs := [],
         error := none, callbackURL := "" } : Job).status = "running" ∧
       1 = (CreateJob "j1" ["a.txt"] "m" "").files.length ∧
       0 < (CreateJob "j1" ["a.txt"] "m" "").files.length)) := by
  refine ⟨by decide, ?_⟩
  exact (processJob_progress_spec cfgMock
      (GenerateEmbeddings (V := Unit) cfgMock genUnit)
      (fun _ _ => Except.ok ([104, 105], "a.txt")) (fun _ => Except.ok ())
      (CreateJob "j1" ["a.txt"] "m" "")).2.2 1 _ (by decide) (by decide)

/-- C4: every record stored in the registry has result_urls populated iff
its status is "completed" and error populated iff its status is "failed"
(in particular never both): this holds for the record CreateJob inserts
and, for a job processed from the created state (empty result urls, no
error), for every write processJob issues. -/
theorem registry_record_fields_iff :
    (∀ jobID files model cb,
      ((CreateJob jobID files model cb).resultURLs ≠ [] ↔
        (CreateJob jobID files model cb).status = "completed") ∧
      ((CreateJob jobID files model cb).error ≠ none ↔
        (CreateJob jobID files model cb).status = "failed")) ∧
    (∀ (V : Type) (cfg : Config)
      (embedF : EmbedRequest → Except String (EmbedResponse V))
      (download : Nat → String → Except String (List Nat × String))
      (save : List (EmbedResponse V) → Except String Unit) (job0 : Job),
      job0.resultURLs = [] → job0.error = none →
      ∀ w ∈ (processJob cfg embedF download save (some job0)).1,
        ((w.resultURLs ≠ [] ↔ w.status = "completed") ∧
         (w.error ≠ none ↔ w.status = "failed"))) := by
  constructor
  · intro jobID files model cb
    constructor
    · simp [CreateJob]
    · simp [CreateJob]
  · intro V cfg embedF download save job0 hurls herr
    set J : Job := { job0 with status := "running", progress := 0 } with hJ
    set R := procFiles cfg embedF download job0.files.length J 0 job0.files
      ([] : List (EmbedResponse V)) with hR
    obtain ⟨hA, hB, hC, hD⟩ := procFiles_spec cfg embedF download
      job0.files.length job0.files 0 J [] R.1 R.2.1 R.2.2.1 R.2.2.2
      (by simp) (by rw [hJ]; simp) rfl
    have hJurls : J.resultURLs = [] := by rw [hJ]; simpa using hurls
    have hJerr : J.error = none := by rw [hJ]; simpa using herr
    have hJP : (J.resultURLs ≠ [] ↔ J.status = "completed") ∧
        (J.error ≠ none ↔ J.status = "failed") := by
      rw [hJurls, hJerr, hJ]
      simp
    have hmid : ∀ w ∈ R.2.1,
        (w.resultURLs ≠ [] ↔ w.status = "completed") ∧
        (w.error ≠ none ↔ w.status = "failed") := by
      intro w hw
      obtain ⟨n, hn⟩ := List.get?_of_mem hw
      obtain ⟨_, _, hb3, hb4⟩ := hB n w hn
      rw [hJurls] at hb3
      rcases hb4 with ⟨hs, he, _⟩ | ⟨hs, _, _, _, e, _, he, _⟩
      · rw [hb3, hs, he, hJerr, hJ]
        simp
      · rw [hb3, hs, he]
        simp
    cases hres : R.2.2.2 with
    | none =>
      rw [processJob_loopfail cfg embedF download save job0 hres, ← hJ, ← hR]
      intro w hw
      rcases List.mem_cons.mp hw with rfl | hw'
      · exact hJP
      · exact hmid w hw'
    | some resl =>
      obtain ⟨hc1, hc2, hc3, hc4, hc5, hc6, hc7⟩ := hC resl hres
      rw [hJurls] at hc3
      rw [hJerr] at hc2
      cases hsave : save resl with
      | error msg =>
        rw [processJob_savefail cfg embedF download save job0 resl msg hres
          hsave, ← hJ, ← hR]
        intro w hw
        rcases List.mem_append.mp hw with hw1 | hw2
        · rcases List.mem_cons.mp hw1 with rfl | hw'
          · exact hJP
          · exact hmid w hw'
        · simp only [List.mem_singleton] at hw2
          subst hw2
          constructor
          · simp [hc3]
          · simp
      | ok u =>
        cases u
        rw [processJob_saveok cfg embedF download save job0 resl hres hsave,
          ← hJ, ← hR]
        intro w hw
        rcases List.mem_append.mp hw with hw1 | hw2
        · rcases List.mem_cons.mp hw1 with rfl | hw'
          · exact hJP
          · exact hmid w hw'
        · simp only [List.mem_singleton] at hw2
          subst hw2
          constructor
          · simp
          · simp [hc2]

/-- Witness for C4, on the one-file success trace: the running write of a
freshly created job satisfies both biconditionals. -/
theorem registry_record_fields_iff_witness :
    ((CreateJob "j1" ["a.txt"] "m" "").resultURLs = [] ∧
      (CreateJob "j1" ["a.txt"] "m" "").error = none) ∧
    (({ jobID := "j1", status := "running", progress := 0,
        files := ["a.txt"], model := "m", resultURLs := [],
        error := none, callbackURL := "" } : Job).resultURLs ≠ [] ↔
      ({ jobID := "j1", status := "running", progress := 0,
         files := ["a.txt"], model := "m", resultURLs := [],
         error := none, callbackURL := "" } : Job).status = "completed") ∧
    (({ jobID := "j1", status := "running", progress := 0,
        files := ["a.txt"], model := "m", resultURLs := [],
        error := none, callbackURL := "" } : Job).error ≠ none ↔
      ({ jobID := "j1", status := "running", progress := 0,
         files := ["a.txt"], model := "m", resultURLs := [],
         error := none, callbackURL := "" } : Job).status = "failed") := by
  refine ⟨⟨rfl, rfl⟩, ?_⟩
  exact (registry_record_fields_iff.2 Unit cfgMock
    (GenerateEmbeddings (V := Unit) cfgMock genUnit)
    (fun _ _ => Except.ok ([104, 105], "a.txt")) (fun _ => Except.ok ())
    (CreateJob "j1" ["a.txt"] "m" "") rfl rfl
    { jobID := "j1", status := "running", progress := 0,
      files := ["a.txt"], model := "m", resultURLs := [],
      error := none, callbackURL := "" } (by decide))

/-- The file loop when the first `k` files succeed and file `k`'s stage
fails: the loop stops at the failure write (its last, `k+1`-st write),
invokes the callback dispatcher on exactly that record, and returns no
accumulated results. -/
theorem procFiles_fail_at {V : Type} (cfg : Config)
    (embedF : EmbedRequest → Except String (EmbedResponse V))
    (download : Nat → String → Except String (List Nat × String))
    (total : Nat) :
    ∀ (k : Nat) (files : List String) (i : Nat) (job : Job)
      (acc : List (EmbedResponse V)) (e : Err),
    k < files.length →
    (∀ j, j < k → (fileResult cfg embedF download (i + j) (files.getD j "")
        job.model).isOk = true) →
    fileResult cfg embedF download (i + k) (files.getD k "") job.model
      = .error e →
    ((procFiles cfg embedF download total job i files acc).2.2.2 = none ∧
     (procFiles cfg embedF download total job i files acc).2.1.length
       = k + 1 ∧
     (procFiles cfg embedF download total job i files acc).2.2.1
       = [(procFiles cfg embedF download total job i files acc).1] ∧
     (procFiles cfg embedF download total job i files acc).1.status
       = "failed" ∧
     (procFiles cfg embedF download total job i files acc).1.error
       = some e ∧
     (procFiles cfg embedF download total job i files acc).2.1.get? k
       = some (procFiles cfg embedF download total job i files acc).1) := by
  intro k
  induction k with
  | zero =>
    intro files i job acc e hk hprev hfail
    match files, hk with
    | url :: rest, _ =>
      simp only [List.getD_cons_zero, Nat.add_zero] at hfail
      rw [procFiles_cons_err cfg embedF download total job i url rest acc e
        hfail]
      exact ⟨rfl, rfl, rfl, rfl, rfl, rfl⟩
  | succ k ih =>
    intro files i job acc e hk hprev hfail
    match files, hk with
    | url :: rest, hk2 =>
      have h0 := hprev 0 (by omega)
      simp only [List.getD_cons_zero, Nat.add_zero] at h0
      obtain ⟨r0, hr0⟩ := exceptIsOk_exists _ h0
      rw [procFiles_cons_ok cfg embedF download total job i url rest acc r0 hr0]
      dsimp only
      have hprev' : ∀ j, j < k → (fileResult cfg embedF download (i + 1 + j)
          (rest.getD j "") job.model).isOk = true := by
        intro j hj
        have h := hprev (j + 1) (by omega)
        simp only [List.getD_cons_succ] at h
        rw [show i + (j + 1) = i + 1 + j by omega] at h
        exact h
      have hfail' : fileResult cfg embedF download (i + 1 + k)
          (rest.getD k "") job.model = .error e := by
        have h := hfail
        simp only [List.getD_cons_succ] at h
        rw [show i + (k + 1) = i + 1 + k by omega] at h
        exact h
      have ih' := ih rest (i + 1)
        { job with progress := ((i : Int) + 1) * 100 / (total : Int) }
        (acc ++ [r0]) e (by simp only [List.length_cons] at hk2; omega)
        hprev' hfail'
      obtain ⟨i1, i2, i3, i4, i5, i6⟩ := ih'
      refine ⟨i1, ?_, i3, i4, i5, ?_⟩
      · simp only [List.length_cons, i2]
      · simp only [List.get?_cons_succ]
        exact i6

/-- C2: if the first `k` files of a job succeed and file `k` fails at
download, extraction or embedding, then processJob writes exactly the
running write, `k` progress writes and one final failed write carrying the
stage's error descriptor (code "download_failed", "extraction_failed" or
"embedding_failed" respectively), invokes the callback dispatcher exactly
once (on that failed record), processes no further file, and persists no
accumulated results. -/
theorem processJob_file_failure_spec {V : Type} (cfg : Config)
    (embedF : EmbedRequest → Except String (EmbedResponse V))
    (download : Nat → String → Except String (List Nat × String))
    (save : List (EmbedResponse V) → Except String Unit) (job0 : Job)
    (k : Nat) (e : Err)
    (hk : k < job0.files.length)
    (hprev : ∀ j, j < k → (fileResult cfg embedF download j
        (job0.files.getD j "") job0.model).isOk = true)
    (hfail : fileResult cfg embedF download k (job0.files.getD k "")
        job0.model = .error e) :
    (processJob cfg embedF download save (some job0)).2.2 = none ∧
    (processJob cfg embedF download save (some job0)).1.length = k + 2 ∧
    (∃ w, (processJob cfg embedF download save (some job0)).1.get? (k + 1)
        = some w ∧
      w.status = "failed" ∧ w.error = some e ∧
      (processJob cfg embedF download save (some job0)).2.1 = [w]) ∧
    (∀ msg, download k (job0.files.getD k "") = .error msg →
      e = Err.mk "download_failed" msg) ∧
    (∀ content filename msg,
      download k (job0.files.getD k "") = .ok (content, filename) →
      ExtractTextFromFile filename content = .error msg →
      e = Err.mk "extraction_failed" msg) ∧
    (∀ content filename text msg,
      download k (job0.files.getD k "") = .ok (content, filename) →
      ExtractTextFromFile filename content = .ok text →
      embedF { model := job0.model,
               inputs := [{ id := filename, text := text }],
               truncateStrategy := "split",
               chunkSize := cfg.defaultChunkSize,
               normalize := true } = .error msg →
      e = Err.mk "embedding_failed" msg) := by
  set J : Job := { job0 with status := "running", progress := 0 } with hJ
  set R := procFiles cfg embedF download job0.files.length J 0 job0.files
    ([] : List (EmbedResponse V)) with hR
  have hprev0 : ∀ j, j < k → (fileResult cfg embedF download (0 + j)
      (job0.files.getD j "") J.model).isOk = true := by
    intro j hj
    simp only [Nat.zero_add]
    exact hprev j hj
  have hfail0 : fileResult cfg embedF download (0 + k)
      (job0.files.getD k "") J.model = .error e := by
    simp only [Nat.zero_add]
    exact hfail
  obtain ⟨f1, f2, f3, f4, f5, f6⟩ := procFiles_fail_at cfg embedF download
    job0.files.length k job0.files 0 J [] e hk hprev0 hfail0
  have hPJ := processJob_loopfail cfg embedF download save job0 f1
  rw [← hJ, ← hR] at hPJ
  rw [hPJ]
  refine ⟨rfl, ?_, ?_, ?_, ?_, ?_⟩
  · simp only [List.length_cons, f2]
  · refine ⟨R.1, ?_, f4, f5, f3⟩
    simp only [List.get?_cons_succ]
    exact f6
  · intro msg hd
    rw [fileResult, hd] at hfail
    exact (Except.error.inj hfail).symm
  · intro content filename msg hd hx
    rw [fileResult, hd] at hfail
    dsimp only at hfail
    rw [hx] at hfail
    exact (Except.error.inj hfail).symm
  · intro content filename text msg hd hx hemb
    rw [fileResult, hd] at hfail
    dsimp only at hfail
    rw [hx] at hfail
    dsimp only at hfail
    rw [hemb] at hfail
    exact (Except.error.inj hfail).symm

/-- Witness for C2: a two-file job whose second file "b.bin" is rejected by
text extraction (unsupported file type); the trace has 3 writes, nothing
persisted. -/
theorem processJob_file_failure_spec_witness :
    (fileResult cfgMock (GenerateEmbeddings (V := Unit) cfgMock genUnit)
        (fun i _ => if i = 0 then Except.ok ([104, 105], "a.txt")
                    else Except.ok ([1, 2], "b.bin"))
        1 ((CreateJob "j2" ["a.txt", "b.bin"] "m" "").files.getD 1 "")
        (CreateJob "j2" ["a.txt", "b.bin"] "m" "").model
      = .error (Err.mk "extraction_failed" "unsupported file type: b.bin")) ∧
    (processJob cfgMock (GenerateEmbeddings (V := Unit) cfgMock genUnit)
        (fun i _ => if i = 0 then Except.ok ([104, 105], "a.txt")
                    else Except.ok ([1, 2], "b.bin"))
        (fun _ => Except.ok ())
        (some (CreateJob "j2" ["a.txt", "b.bin"] "m" ""))).2.2 = none ∧
    (processJob cfgMock (GenerateEmbeddings (V := Unit) cfgMock genUnit)
        (fun i _ => if i = 0 then Except.ok ([104, 105], "a.txt")
                    else Except.ok ([1, 2], "b.bin"))
        (fun _ => Except.ok ())
        (some (CreateJob "j2" ["a.txt", "b.bin"] "m" ""))).1.length
      = 1 + 2 := by
  have h := processJob_file_failure_spec cfgMock
    (GenerateEmbeddings (V := Unit) cfgMock genUnit)
    (fun i _ => if i = 0 then Except.ok ([104, 105], "a.txt")
                else Except.ok ([1, 2], "b.bin"))
    (fun _ => Except.ok ()) (CreateJob "j2" ["a.txt", "b.bin"] "m" "")
    1 (Err.mk "extraction_failed" "unsupported file type: b.bin")
    (by decide)
    (by
      intro j hj
      have hj0 : j = 0 := by omega
      subst hj0
      decide)
    (by decide)
  exact ⟨by decide, h.1, h.2.1⟩

/-- With the real GenerateEmbeddings as embedding backend, a failing file
stage is the download or the extraction stage, never the embedding stage.
-/
theorem fileResult_genEmb_code {V : Type} (cfg cfg2 : Config)
    (gen : String → Bool → V)
    (download : Nat → String → Except String (List Nat × String))
    (i : Nat) (url model : String) (e : Err)
    (h : fileResult cfg (GenerateEmbeddings cfg2 gen) download i url model
      = .error e) :
    e.code = "download_failed" ∨ e.code = "extraction_failed" := by
  rw [fileResult] at h
  cases hd : download i url with
  | error msg =>
    rw [hd] at h
    left
    rw [← Except.error.inj h]
  | ok cf =>
    rcases cf with ⟨content, filename⟩
    rw [hd] at h
    dsimp only at h
    cases hx : ExtractTextFromFile filename content with
    | error msg =>
      rw [hx] at h
      right
      rw [← Except.error.inj h]
    | ok text =>
      rw [hx] at h
      dsimp only at h
      exact absurd h (by simp [GenerateEmbeddings])

/-- C10: GenerateEmbeddings' only return path carries a nil error, so with
it as the embedding backend the worker's `embedding_failed` branch is
unreachable: no registry write of a processJob run on a fresh job ever
carries the error code "embedding_failed". -/
theorem generateEmbeddings_never_fails :
    (∀ (V : Type) (cfg : Config) (gen : String → Bool → V)
      (req : EmbedRequest),
      ∃ resp, GenerateEmbeddings cfg gen req = Except.ok resp) ∧
    (∀ (V : Type) (cfg : Config) (gen : String → Bool → V)
      (download : Nat → String → Except String (List Nat × String))
      (save : List (EmbedResponse V) → Except String Unit) (job0 : Job),
      job0.error = none →
      ∀ w ∈ (processJob cfg (GenerateEmbeddings cfg gen) download save
          (some job0)).1,
        ∀ e, w.error = some e → e.code ≠ "embedding_failed") := by
  constructor
  · intro V cfg gen req
    exact ⟨_, rfl⟩
  · intro V cfg gen download save job0 herr
    set J : Job := { job0 with status := "running", progress := 0 } with hJ
    set R := procFiles cfg (GenerateEmbeddings cfg gen) download
      job0.files.length J 0 job0.files ([] : List (EmbedResponse V)) with hR
    obtain ⟨hA, hB, hC, hD⟩ := procFiles_spec cfg
      (GenerateEmbeddings cfg gen) download
      job0.files.length job0.files 0 J [] R.1 R.2.1 R.2.2.1 R.2.2.2
      (by simp) (by rw [hJ]; simp) rfl
    have hJerr : J.error = none := by rw [hJ]; simpa using herr
    have hmid : ∀ w ∈ R.2.1, ∀ e, w.error = some e →
        e.code ≠ "embedding_failed" := by
      intro w hw e he
      obtain ⟨n, hn⟩ := List.get?_of_mem hw
      obtain ⟨_, _, _, hb4⟩ := hB n w hn
      rcases hb4 with ⟨_, herr2, _⟩ | ⟨_, _, _, _, e2, u2, herr2, hfe⟩
      · rw [herr2, hJerr] at he
        simp at he
      · rw [herr2] at he
        have he2 : e2 = e := by simpa using he
        subst he2
        rcases fileResult_genEmb_code cfg cfg gen download (0 + n) u2 J.model
            e2 hfe with hc | hc
        · rw [hc]
          decide
        · rw [hc]
          decide
    cases hres : R.2.2.2 with
    | none =>
      rw [processJob_loopfail cfg (GenerateEmbeddings cfg gen) download save
        job0 hres, ← hJ, ← hR]
      intro w hw e he
      rcases List.mem_cons.mp hw with rfl | hw'
      · rw [hJerr] at he
        simp at he
      · exact hmid w hw' e he
    | some resl =>
      obtain ⟨hc1, hc2, hc3, hc4, hc5, hc6, hc7⟩ := hC resl hres
      rw [hJerr] at hc2
      cases hsave : save resl with
      | error msg =>
        rw [processJob_savefail cfg (GenerateEmbeddings cfg gen) download
          save job0 resl msg hres hsave, ← hJ, ← hR]
        intro w hw e he
        rcases List.mem_append.mp hw with hw1 | hw2
        · rcases List.mem_cons.mp hw1 with rfl | hw'
          · rw [hJerr] at he
            simp at he
          · exact hmid w hw' e he
        · simp only [List.mem_singleton] at hw2
          subst hw2
          simp only [Option.some.injEq] at he
          rw [← he]
          exact (by decide : ("storage_failed" : String) ≠ "embedding_failed")
      | ok u =>
        cases u
        rw [processJob_saveok cfg (GenerateEmbeddings cfg gen) download save
          job0 resl hres hsave, ← hJ, ← hR]
        intro w hw e he
        rcases List.mem_append.mp hw with hw1 | hw2
        · rcases List.mem_cons.mp hw1 with rfl | hw'
          · rw [hJerr] at he
            simp at he
          · exact hmid w hw' e he
        · simp only [List.mem_singleton] at hw2
          subst hw2
          rw [hc2] at he
          simp at he

/-- Witness for C10: a concrete request always embeds, and on a trace with
a failing download the failed write's code is not "embedding_failed". -/
theorem generateEmbeddings_never_fails_witness :
    (∃ resp, GenerateEmbeddings (V := Unit) cfgMock genUnit (reqABCD "split")
      = Except.ok resp) ∧
    (Err.mk "download_failed" "boom").code ≠ "embedding_failed" := by
  constructor
  · exact generateEmbeddings_never_fails.1 Unit cfgMock genUnit
      (reqABCD "split")
  · exact generateEmbeddings_never_fails.2 Unit cfgMock genUnit
      (fun _ _ => Except.error "boom") (fun _ => Except.ok ())
      (CreateJob "j1" ["a.txt"] "m" "") rfl
      { jobID := "j1", status := "failed", progress := 0, files := ["a.txt"],
        model := "m", resultURLs := [],
        error := some (Err.mk "download_failed" "boom"), callbackURL := "" }
      (by decide) (Err.mk "download_failed" "boom") rfl

end BatchEmbedding
